import Mathlib

/-!
Verification development for the Volta toolchain manager (volta-core).

Each section embeds one subsystem of the Rust source shallowly in Lean:

* version specifier parsing (`crates/volta-core/src/version/mod.rs`, `serial.rs`)
* the double-checked fetch guard (`crates/volta-core/src/tool/mod.rs`)
* the process-wide refcounted lock (`crates/volta-core/src/sync.rs`)
* node uninstall (`crates/volta-core/src/tool/node/uninstall.rs`)
* the node index cache (`crates/volta-core/src/tool/node/resolve.rs`)
* the default-toolchain setters (`crates/volta-core/src/toolchain/mod.rs`)
* archive basenames (`crates/volta-core/src/tool/node/mod.rs`)
* executor sequencing (`crates/volta-core/src/run/executor.rs`)
* shim regeneration (`crates/volta-core/src/shim.rs`)

All definitions are executable and use only structural recursion, so concrete
runs reduce by `decide` / `rfl`.
-/

namespace Volta

/-! ## Version model (external crate `node_semver`)

The `node_semver` crate is an external dependency whose sources are not part
of this repository, so its two parsers are modelled from the specification.
-/

/-- Semantic version: a structured triple plus optional prerelease/build
identifiers, mirroring `node_semver::Version`. -/
structure Version where
  major : Nat
  minor : Nat
  patch : Nat
  prerelease : List String := []
  build : List String := []
deriving DecidableEq, Repr

/-- Numeric value of a digit character. -/
def digitVal (c : Char) : Nat := c.toNat - 48

/-- Consume a nonempty run of leading digits, returning its value and the rest. -/
def takeDigits (cs : List Char) : Option (Nat × List Char) :=
  let ds := cs.takeWhile Char.isDigit
  if ds.isEmpty then none
  else some (ds.foldl (fun a c => a * 10 + digitVal c) 0, cs.dropWhile Char.isDigit)

/-- Characters allowed in prerelease/build identifiers. -/
def isIdentChar (c : Char) : Bool := c.isAlphanum || c = '-'

/-- Strip whitespace from both ends of a character list (model of `str::trim`). -/
def trimChars (cs : List Char) : List Char :=
  ((cs.dropWhile Char.isWhitespace).reverse.dropWhile Char.isWhitespace).reverse

/-- Split a character list at every occurrence of a single separator character. -/
def splitOnChar (sep : Char) : List Char → List (List Char)
  | [] => [[]]
  | c :: rest =>
    if c = sep then [] :: splitOnChar sep rest
    else
      match splitOnChar sep rest with
      | [] => [[c]]
      | g :: gs => (c :: g) :: gs

/-- Split a character list at every occurrence of the two-character separator
`||` (model of `str::split` by `"||"`). -/
def splitOnOrOr : List Char → List (List Char)
  | [] => [[]]
  | '|' :: '|' :: rest => [] :: splitOnOrOr rest
  | c :: rest =>
    match splitOnOrOr rest with
    | [] => [[c]]
    | g :: gs => (c :: g) :: gs

/-- Split a character list at every occurrence of the three-character
separator `' - '` (the hyphen-range separator). -/
def splitOnHyphenSep : List Char → List (List Char)
  | [] => [[]]
  | ' ' :: '-' :: ' ' :: rest => [] :: splitOnHyphenSep rest
  | c :: rest =>
    match splitOnHyphenSep rest with
    | [] => [[c]]
    | g :: gs => (c :: g) :: gs

/-- Parse a dot-separated list of nonempty alphanumeric-or-hyphen identifiers. -/
def parseDotIdents (cs : List Char) : Option (List String) :=
  let parts := splitOnChar '.' cs
  if parts.all (fun p => !p.isEmpty && p.all isIdentChar) then
    some (parts.map String.mk)
  else
    none

/-- Parse the optional `-pre` / `+build` tail of a version. -/
def parseExtras (cs : List Char) : Option (List String × List String) :=
  match cs with
  | [] => some ([], [])
  | '-' :: rest =>
    let pre := rest.takeWhile (· ≠ '+')
    let buildPart := rest.dropWhile (· ≠ '+')
    match parseDotIdents pre with
    | none => none
    | some preIds =>
      match buildPart with
      | [] => some (preIds, [])
      | '+' :: b =>
        match parseDotIdents b with
        | none => none
        | some buildIds => some (preIds, buildIds)
      | _ => none
  | '+' :: rest =>
    match parseDotIdents rest with
    | none => none
    | some buildIds => some ([], buildIds)
  | _ => none

/-- Consume `.<digits>` if present; otherwise leave the input untouched. -/
def optDotNum (cs : List Char) : Option Nat × List Char :=
  match cs with
  | '.' :: rest =>
    match takeDigits rest with
    | some (n, r) => (some n, r)
    | none => (none, cs)
  | _ => (none, cs)

/-- Drop one optional leading `v` or `V`. -/
def dropOneV (cs : List Char) : List Char :=
  match cs with
  | 'v' :: rest => rest
  | 'V' :: rest => rest
  | other => other

/-- Modelled from the spec: `node_semver::Version::parse` (external crate, not
under `src/`). Per the spec, `VersionSpec::parse("v1.5")` is `Exact(1.5.0)` and
"a leading `v` is stripped", so the version parser is lenient: it accepts an
optional leading `v`/`V` and missing minor/patch components (defaulting them to
0), followed by optional `-prerelease` and `+build` identifiers, and must
consume the entire (trimmed) input. -/
def parseVersion (s : String) : Option Version :=
  let cs := dropOneV (trimChars s.data)
  match takeDigits cs with
  | none => none
  | some (maj, rest₁) =>
    let (minr, rest₂) := optDotNum rest₁
    let (pat, rest₃) := optDotNum rest₂
    match parseExtras rest₃ with
    | none => none
    | some (pre, bld) =>
      some { major := maj, minor := minr.getD 0, patch := pat.getD 0,
             prerelease := pre, build := bld }

/-! Range (semver requirement) model, mirroring `node_semver::Range`. -/

/-- Comparator operator of a simple range clause. -/
inductive CompOp where
  | eq
  | lt
  | lte
  | gt
  | gte
  | tilde
  | caret
deriving DecidableEq, Repr

/-- One component pattern of a range comparator. `none` components are
wildcards (`x`, `X`, `*`) or missing positions. -/
structure VerPattern where
  major : Option Nat
  minor : Option Nat
  patch : Option Nat
  pre : List String := []
deriving DecidableEq, Repr

/-- One simple comparator: an operator applied to a component pattern. -/
structure Comparator where
  op : CompOp
  pat : VerPattern
deriving DecidableEq, Repr

/-- One `||`-alternative of a range: a space-separated conjunction of simple
comparators, or an inclusive hyphen range. -/
inductive RangeClause where
  | simples (cs : List Comparator)
  | hyphen (lo hi : VerPattern)
deriving DecidableEq, Repr

/-- A range is a disjunction of clauses, one per `||`-separated alternative. -/
abbrev Range := List RangeClause

/-- Consume one `xr` component: a wildcard (`x`, `X`, `*`) or a number. -/
def takeXr (cs : List Char) : Option (Option Nat × List Char) :=
  match cs with
  | '*' :: rest => some (none, rest)
  | 'x' :: rest => some (none, rest)
  | 'X' :: rest => some (none, rest)
  | other =>
    match takeDigits other with
    | some (n, r) => some (some n, r)
    | none => none

/-- Modelled from the spec: a `partial` of the node-community range grammar,
`xr ( '.' xr ( '.' xr qualifier ? )? )?`, with an optional leading `v`/`V`.
The whole input must be consumed. -/
def parsePattern (cs₀ : List Char) : Option VerPattern :=
  let cs := dropOneV cs₀
  match takeXr cs with
  | none => none
  | some (maj, rest₁) =>
    match rest₁ with
    | [] => some { major := maj, minor := none, patch := none }
    | '.' :: rest₂ =>
      match takeXr rest₂ with
      | none => none
      | some (minr, rest₃) =>
        match rest₃ with
        | [] => some { major := maj, minor := minr, patch := none }
        | '.' :: rest₄ =>
          match takeXr rest₄ with
          | none => none
          | some (pat, rest₅) =>
            match parseExtras rest₅ with
            | none => none
            | some (pre, _) =>
              some { major := maj, minor := minr, patch := pat, pre := pre }
        | _ => none
    | _ => none

/-- Modelled from the spec: one `simple` of the node-community range grammar,
an optional comparator operator (`=`, `<`, `<=`, `>`, `>=`, `~`, `^`)
followed by a partial version pattern. -/
def parseComparator (cs : List Char) : Option Comparator :=
  let (op, rest) :=
    match cs with
    | '>' :: '=' :: r => (CompOp.gte, r)
    | '<' :: '=' :: r => (CompOp.lte, r)
    | '>' :: r => (CompOp.gt, r)
    | '<' :: r => (CompOp.lt, r)
    | '=' :: r => (CompOp.eq, r)
    | '~' :: r => (CompOp.tilde, r)
    | '^' :: r => (CompOp.caret, r)
    | r => (CompOp.eq, r)
  (parsePattern rest).map (fun pat => { op := op, pat := pat })

/-- Modelled from the spec: one `||`-alternative, which is either empty
(matches everything), a hyphen range `partial ' - ' partial`, or a
space-separated conjunction of simple comparators. -/
def parseClause (cs : List Char) : Option RangeClause :=
  if cs.isEmpty then some (.simples [])
  else
    match splitOnHyphenSep cs with
    | [lo, hi] =>
      match parsePattern (trimChars lo), parsePattern (trimChars hi) with
      | some l, some h => some (.hyphen l h)
      | _, _ => none
    | [single] =>
      let toks := (splitOnChar ' ' single).filter (fun t => !t.isEmpty)
      (toks.mapM parseComparator).map RangeClause.simples
    | _ => none

/-- Modelled from the spec: `node_semver::Range::parse` over the node-community
grammar — `||`-separated alternatives of comparator conjunctions or hyphen
ranges. -/
def parseRange (s : String) : Option Range :=
  ((splitOnOrOr s.data).map trimChars).mapM parseClause

/-- Embedding of `trim_start_matches('v')`: drop every leading `v`. -/
def stripLeadingVs (cs : List Char) : List Char :=
  cs.dropWhile (· = 'v')

/-- Embedding of `serial::parse_requirements`
(`crates/volta-core/src/version/serial.rs`): trim whitespace and leading `v`
characters, then parse as a node-compatible range. -/
def parseRequirements (s : String) : Option Range :=
  parseRange (String.mk (stripLeadingVs (trimChars s.data)))

/-! Version specifiers (`crates/volta-core/src/version/mod.rs`). -/

/-- Embedding of `VersionTag`. -/
inductive VersionTag where
  | latest
  | lts
  | custom (s : String)
deriving DecidableEq, Repr

/-- Embedding of `VersionSpec`. -/
inductive VersionSpec where
  | none
  | semver (r : Range)
  | exact (v : Version)
  | tag (t : VersionTag)
deriving DecidableEq, Repr

/-- Error kinds raised by version parsing (`ErrorKind::VersionParseError`). -/
inductive VErr where
  | versionParseError (version : String)
deriving DecidableEq, Repr

/-- Embedding of `impl FromStr for VersionTag`: `"latest"` and `"lts"` map to
the special tags and every other string becomes `Custom`. -/
def versionTagFromStr (s : String) : Except VErr VersionTag :=
  if s = "latest" then .ok .latest
  else if s = "lts" then .ok .lts
  else .ok (.custom s)

/-- Embedding of `impl FromStr for VersionSpec`: try an exact version first,
then a semver range, then fall back to a tag. -/
def versionSpecFromStr (s : String) : Except VErr VersionSpec :=
  match parseVersion s with
  | some v => .ok (.exact v)
  | Option.none =>
    match parseRequirements s with
    | some r => .ok (.semver r)
    | Option.none => (versionTagFromStr s).map VersionSpec.tag

/-! ## Double-checked fetch guard (`crates/volta-core/src/tool/mod.rs`)

`check_fetched` evaluates an `already_fetched` predicate, acquiring the Volta
lock between a failed first check and the confirming second check. The
predicate reads the file system, so successive evaluations may differ: the
model indexes each evaluation. The model also reports how many evaluations
ran and whether the lock was acquired, so that the lock-free fast path is
observable. -/

/-- Embedding of `FetchStatus`: the lock of a `FetchNeeded` is `none` when
acquisition failed (the fetch still proceeds). -/
inductive FetchStatus where
  | alreadyFetched
  | fetchNeeded (lock : Option Unit)
deriving DecidableEq, Repr

/-- Environment for one `check_fetched` call: the outcome of the i-th
predicate evaluation, and whether `VoltaLock::acquire` succeeds. -/
structure CheckCtx (ε : Type) where
  pred : Nat → Except ε Bool
  lockOk : Bool

/-- Observable result of `check_fetched`: the status, the number of predicate
evaluations performed, and whether the Volta lock was acquired. -/
structure CheckResult where
  status : FetchStatus
  evals : Nat
  lockTaken : Bool
deriving DecidableEq, Repr

/-- Embedding of `check_fetched`: evaluate the predicate lock-free; if false,
acquire the lock (tolerating failure) and evaluate again; declare
`FetchNeeded` only if the second evaluation is also false. -/
def checkFetched {ε : Type} (ctx : CheckCtx ε) : Except ε CheckResult :=
  match ctx.pred 0 with
  | .error e => .error e
  | .ok true => .ok ⟨.alreadyFetched, 1, false⟩
  | .ok false =>
    let lock : Option Unit := if ctx.lockOk then some () else none
    match ctx.pred 1 with
    | .error e => .error e
    | .ok true => .ok ⟨.alreadyFetched, 2, ctx.lockOk⟩
    | .ok false => .ok ⟨.fetchNeeded lock, 2, ctx.lockOk⟩

/-! ## Process-wide refcounted lock (`crates/volta-core/src/sync.rs`)

`LOCK_STATE` is a process-global `Option<LockState>` cell holding the open
lock-file handle and a count of live guards; `VoltaLock::acquire` and the
guard's `Drop` impl manipulate it. The model adds a ghost field `live`
counting live `VoltaLock` guards; `drop` can only be invoked on a live
guard. -/

/-- Process-global lock state: whether the OS exclusive file lock is held,
the `LOCK_STATE` cell (`some count` models a populated `LockState` with its
open file handle and count), and the ghost count of live guards. -/
structure LockSt where
  osLocked : Bool
  state : Option Nat
  live : Nat
deriving DecidableEq, Repr

/-- Initial state: no lock file held, empty `LOCK_STATE`, no guards. -/
def initLockSt : LockSt := ⟨false, none, 0⟩

/-- Stored refcount: the count in the `LOCK_STATE` cell, 0 when the cell is
empty. -/
def lockCount (s : LockSt) : Nat := s.state.getD 0

/-- Embedding of `VoltaLock::acquire`: with an existing state, increment the
count; otherwise open the lock file, take the OS exclusive lock, and set the
count to 1. A new guard becomes live either way. -/
def lockAcquire (s : LockSt) : LockSt :=
  match s.state with
  | some c => { s with state := some (c + 1), live := s.live + 1 }
  | none => { osLocked := true, state := some 1, live := s.live + 1 }

/-- Embedding of `impl Drop for VoltaLock`: with count 1, release the OS lock
and clear the state; otherwise decrement the count. One guard dies. -/
def lockDrop (s : LockSt) : LockSt :=
  match s.state with
  | some c =>
    if c = 1 then { osLocked := false, state := none, live := s.live - 1 }
    else { s with state := some (c - 1), live := s.live - 1 }
  | none => { s with live := s.live - 1 }

/-- States reachable from the initial state by acquiring guards and dropping
live guards. -/
inductive LockReachable : LockSt → Prop where
  | init : LockReachable initLockSt
  | acquire {s : LockSt} : LockReachable s → LockReachable (lockAcquire s)
  | drop {s : LockSt} : LockReachable s → 1 ≤ s.live → LockReachable (lockDrop s)

/-! ## Default toolchain setters (`crates/volta-core/src/toolchain/mod.rs`)

The `Toolchain` holds an `Option<PlatformSpec>`; each setter mutates it and
calls `save()` (which writes the platform file) only when the stored value
changed. The model returns the new platform together with a flag recording
whether `save()` ran. -/

/-- Embedding of `PlatformSpec`: a node version plus optional package-manager
versions. -/
structure PlatformSpec where
  node : Version
  npm : Option Version := none
  pnpm : Option Version := none
  yarn : Option Version := none
deriving DecidableEq, Repr

/-- Error raised when setting a package manager without a default platform
(`ErrorKind::NoDefaultNodeVersion`). -/
inductive ToolchainErr where
  | noDefaultNodeVersion (tool : String)
deriving DecidableEq, Repr

/-- Embedding of `Toolchain::set_active_node`. The `Bool` records whether the
platform file was written (`save()` called); `save` itself is modelled as
always succeeding, which is the only error source of the original. -/
def setActiveNode (p : Option PlatformSpec) (v : Version) :
    Option PlatformSpec × Bool :=
  match p with
  | some plat =>
    if plat.node ≠ v then (some { plat with node := v }, true) else (p, false)
  | none => (some { node := v }, true)

/-- Embedding of `Toolchain::set_active_npm`. -/
def setActiveNpm (p : Option PlatformSpec) (npm : Option Version) :
    Except ToolchainErr (Option PlatformSpec × Bool) :=
  match p with
  | some plat =>
    if plat.npm ≠ npm then .ok (some { plat with npm := npm }, true)
    else .ok (p, false)
  | none =>
    if npm.isSome then .error (.noDefaultNodeVersion "npm") else .ok (none, false)

/-- Embedding of `Toolchain::set_active_pnpm`. -/
def setActivePnpm (p : Option PlatformSpec) (pnpm : Option Version) :
    Except ToolchainErr (Option PlatformSpec × Bool) :=
  match p with
  | some plat =>
    if plat.pnpm ≠ pnpm then .ok (some { plat with pnpm := pnpm }, true)
    else .ok (p, false)
  | none =>
    if pnpm.isSome then .error (.noDefaultNodeVersion "pnpm") else .ok (none, false)

/-- Embedding of `Toolchain::set_active_yarn`. -/
def setActiveYarn (p : Option PlatformSpec) (yarn : Option Version) :
    Except ToolchainErr (Option PlatformSpec × Bool) :=
  match p with
  | some plat =>
    if plat.yarn ≠ yarn then .ok (some { plat with yarn := yarn }, true)
    else .ok (p, false)
  | none =>
    if yarn.isSome then .error (.noDefaultNodeVersion "Yarn") else .ok (none, false)

/-! ## Node archive basenames (`crates/volta-core/src/tool/node/mod.rs`)

The `cfg_if!` block fixes per-target constants, and `archive_basename` has
three `#[cfg]` variants: the macOS-aarch64 and Windows-aarch64 ones apply an
`x64` fallback below majors 16 and 20 respectively. The model makes the
compile target an explicit parameter ranging over the supported
OS/architecture combinations. -/

/-- Supported compile targets of the `cfg_if!` block. -/
inductive Target where
  | winX86
  | winX64
  | winA64
  | macX64
  | macA64
  | linuxX64
  | linuxA64
  | linuxArm
deriving DecidableEq, Repr

/-- Per-target constant `NODE_DISTRO_OS`. -/
def nodeDistroOs : Target → String
  | .winX86 => "win"
  | .winX64 => "win"
  | .winA64 => "win"
  | .macX64 => "darwin"
  | .macA64 => "darwin"
  | .linuxX64 => "linux"
  | .linuxA64 => "linux"
  | .linuxArm => "linux"

/-- Per-target constant `NODE_DISTRO_ARCH` (the native architecture slice). -/
def nodeDistroArch : Target → String
  | .winX86 => "x86"
  | .winX64 => "x64"
  | .winA64 => "arm64"
  | .macX64 => "x64"
  | .macA64 => "arm64"
  | .linuxX64 => "x64"
  | .linuxA64 => "arm64"
  | .linuxArm => "armv7l"

/-- Per-target constant `NODE_DISTRO_EXTENSION`. -/
def nodeDistroExtension : Target → String
  | .winX86 => "zip"
  | .winX64 => "zip"
  | .winA64 => "zip"
  | _ => "tar.gz"

/-- Constant `NODE_DISTRO_ARCH_FALLBACK` of the macOS-aarch64 target. -/
def nodeDistroArchFallbackMac : String := "x64"

/-- Constant `NODE_DISTRO_ARCH_FALLBACK` of the Windows-aarch64 target. -/
def nodeDistroArchFallbackWin : String := "x64"

/-- Decimal rendering of a version, as `Display for node_semver::Version`
renders it into `format!("node-v{}-…", version)` for release versions. -/
def versionToString (v : Version) : String :=
  toString v.major ++ "." ++ toString v.minor ++ "." ++ toString v.patch

/-- Embedding of `Node::archive_basename`, covering its three `#[cfg]`
variants: the plain one, the macOS-aarch64 one (fallback below major 16) and
the Windows-aarch64 one (fallback below major 20). -/
def archiveBasename (t : Target) (v : Version) : String :=
  match t with
  | .macA64 =>
    "node-v" ++ versionToString v ++ "-" ++ nodeDistroOs .macA64 ++ "-" ++
      (if 16 ≤ v.major then nodeDistroArch .macA64 else nodeDistroArchFallbackMac)
  | .winA64 =>
    "node-v" ++ versionToString v ++ "-" ++ nodeDistroOs .winA64 ++ "-" ++
      (if 20 ≤ v.major then nodeDistroArch .winA64 else nodeDistroArchFallbackWin)
  | t => "node-v" ++ versionToString v ++ "-" ++ nodeDistroOs t ++ "-" ++ nodeDistroArch t

/-- Embedding of `Node::archive_filename`. -/
def archiveFilename (t : Target) (v : Version) : String :=
  archiveBasename t v ++ "." ++ nodeDistroExtension t

/-! ## Executors (`crates/volta-core/src/run/executor.rs`)

`Executor::execute` dispatches the leaf commands and, for
`Executor::Multiple`, runs the sub-executors in order, aborting at the first
non-success exit status. Leaf commands are modelled as state transformers
returning an exit status (0 = success, matching
`ExitStatus::from_raw(0).success()`); the mutual list type keeps all
recursion structural. -/

mutual

/-- Embedding of `Executor`: a leaf command (any of the non-`Multiple`
variants, abstracted as a state transformer producing an exit status) or a
`Multiple` list of sub-executors. -/
inductive Executor (σ ε : Type) where
  | leaf (run : σ → Except ε (Nat × σ))
  | multiple (subs : ExecutorList σ ε)

/-- List of executors (kept mutual so that recursion stays structural). -/
inductive ExecutorList (σ ε : Type) where
  | nil
  | cons (head : Executor σ ε) (tail : ExecutorList σ ε)

end

/-- Append on executor lists. -/
def ExecutorList.append {σ ε : Type} : ExecutorList σ ε → ExecutorList σ ε → ExecutorList σ ε
  | .nil, ys => ys
  | .cons x xs, ys => .cons x (xs.append ys)

mutual

/-- Embedding of `Executor::execute`. -/
def Executor.execute {σ ε : Type} : Executor σ ε → σ → Except ε (Nat × σ)
  | .leaf run, s => run s
  | .multiple subs, s => ExecutorList.executeAll subs s

/-- Embedding of the `Executor::Multiple` loop: run each sub-executor in
order; return the first non-success status immediately; return status 0 if
every sub-executor succeeds. -/
def ExecutorList.executeAll {σ ε : Type} : ExecutorList σ ε → σ → Except ε (Nat × σ)
  | .nil, s => .ok (0, s)
  | .cons e rest, s =>
    match e.execute s with
    | .error err => .error err
    | .ok (st, s') => if st = 0 then rest.executeAll s' else .ok (st, s')

end

/-! ## Node index cache (`crates/volta-core/src/tool/node/resolve.rs`)

`read_cached_opt` validates the two cache files (expiry timestamp and
URL-prefixed index body); `resolve_node_versions` returns the cached index on
a hit and performs a network fetch otherwise. HTTP-date parsing
(`httpdate::parse_http_date`) and JSON deserialisation are external, so the
model takes them as parameters; time is an abstract `Nat` instant. -/

/-- Error kinds of the cache path. -/
inductive CErr where
  | parseNodeIndexExpiryError
  | parseNodeIndexCacheError
  | registryFetchError
deriving DecidableEq, Repr

/-- Contents of the node index cache: the expiry file and the URL-prefixed
index file, each `none` when absent (`read_file` maps `NotFound` to `None`). -/
structure NodeCacheFs where
  expiryFile : Option String
  indexFile : Option String
deriving DecidableEq, Repr

/-- Embedding of `str::strip_prefix`. -/
def stripPrefix (pre s : String) : Option String :=
  if pre.data.isPrefixOf s.data then some (String.mk (s.data.drop pre.data.length))
  else none

/-- Embedding of `read_cached_opt`: require a present, parseable expiry
strictly later than now (a present but unparseable expiry is an error, not a
miss); then require the index body to start with the requested URL (else a
miss); then parse the remainder (a parse failure is an error). -/
def readCachedOpt {α : Type} (parseDate : String → Option Nat)
    (parseJson : String → Option α) (now : Nat) (url : String)
    (fs : NodeCacheFs) : Except CErr (Option α) :=
  let fresh : Except CErr Bool :=
    match fs.expiryFile with
    | none => .ok false
    | some contents =>
      match parseDate contents with
      | none => .error .parseNodeIndexExpiryError
      | some d => .ok (decide (now < d))
  match fresh with
  | .error e => .error e
  | .ok false => .ok none
  | .ok true =>
    match fs.indexFile.bind (fun contents => stripPrefix url contents) with
    | none => .ok none
    | some json =>
      match parseJson json with
      | none => .error .parseNodeIndexCacheError
      | some idx => .ok (some idx)

/-- Whether the resolved index came from the cache or from a fresh network
fetch. -/
inductive ResolveOutcome (α : Type) where
  | fromCache (idx : α)
  | fetched (idx : α)
deriving DecidableEq, Repr

/-- Embedding of `resolve_node_versions` (cache-writing on the fetch path is
not observed here): return the cached index on a hit, otherwise perform the
network fetch, whose outcome is the `fetchResult` parameter. -/
def resolveNodeVersions {α : Type} (parseDate : String → Option Nat)
    (parseJson : String → Option α) (now : Nat) (url : String)
    (fs : NodeCacheFs) (fetchResult : Except CErr α) :
    Except CErr (ResolveOutcome α) :=
  match readCachedOpt parseDate parseJson now url fs with
  | .error e => .error e
  | .ok (some idx) => .ok (.fromCache idx)
  | .ok none => fetchResult.map ResolveOutcome.fetched

/-- Stand-in for `httpdate::parse_http_date` in concrete runs: accepts a
string of decimal digits as a timestamp and rejects anything else (in
particular it rejects `"garbage"`, as the real HTTP-date parser does). -/
def parseHttpDateModel (s : String) : Option Nat :=
  match takeDigits s.data with
  | some (n, []) => some n
  | _ => none

/-! ## Node uninstall (`crates/volta-core/src/tool/node/uninstall.rs`)

`uninstall` resolves the matching version and logs it; the calls
`remove_dir_if_exists(node_image_dir)` and `remove_shared_link_dir(name)`
are commented out in the source, so no file-system mutation happens.
Resolution depends on the session and network, so it is a parameter. -/

/-- Observable Volta state touched by uninstall flows. -/
structure VoltaFs where
  nodeImageDirs : List String
  sharedLinkDirs : List String
  packageConfigs : List String
  binConfigs : List String
  shims : List String
  packageImageDirs : List String
deriving DecidableEq, Repr

/-- Embedding of `node::uninstall`: resolve the version (propagating
failure), log, and return with the file system untouched — the two removal
calls are commented out in the source. -/
def nodeUninstall {ε : Type} (resolve : VersionSpec → Except ε Version)
    (matching : VersionSpec) (fs : VoltaFs) : Except ε VoltaFs :=
  match resolve matching with
  | .error e => .error e
  | .ok _version => .ok fs

/-! ## Shim regeneration (`crates/volta-core/src/shim.rs`, Unix variant)

The shim directory is modelled as an association list from file name to
entry. `get_shim_list_deduped` collects the stems of symlink entries and adds
the six default shims (a `HashSet`, modelled as a deduplicated list);
`regenerate_shims_for_dir` then deletes and recreates each name. -/

/-- A directory entry: a symlink with a target, or a regular file. -/
inductive Entry where
  | symlink (target : String)
  | regular (content : String)
deriving DecidableEq, Repr

/-- A directory: an association list from file name to entry. -/
abbrev Dir := List (String × Entry)

/-- Entry stored under a file name (first match). -/
def entryAt (d : Dir) (name : String) : Option Entry :=
  (d.find? (fun p => p.1 = name)).map (fun p => p.2)

/-- Embedding of `Path::file_stem` for plain file names: the whole name when
there is no dot, or when the name starts with a dot and has no further dot;
otherwise the portion before the final dot. -/
def fileStem (name : String) : String :=
  match name.data with
  | [] => ""
  | c :: rest =>
    if c = '.' && !rest.contains '.' then name
    else if (c :: rest).contains '.' then
      String.mk (((c :: rest).reverse.dropWhile (· ≠ '.')).drop 1).reverse
    else name

/-- Target of every shim symlink: the `volta-shim` executable
(`volta_install()?.shim_executable()`). -/
def shimExecutable : String := "volta-shim"

/-- Embedding of `shim::delete` on the directory: remove the file named
`bin/<name>` (missing files are fine). -/
def deleteShim (d : Dir) (name : String) : Dir :=
  d.filter (fun p => p.1 ≠ name)

/-- Embedding of Unix `platform::create`: symlink `bin/<name>` to the shim
executable; an existing file means `AlreadyExists` and no change. -/
def createShim (d : Dir) (name : String) : Dir :=
  if d.any (fun p => p.1 = name) then d
  else (name, .symlink shimExecutable) :: d

/-- Embedding of Unix `platform::entry_to_shim_name`: the stem of a symlink
entry. -/
def entryToShimName (p : String × Entry) : Option String :=
  match p.2 with
  | .symlink _ => some (fileStem p.1)
  | .regular _ => none

/-- The six default shims inserted on Unix. -/
def defaultShims : List String := ["node", "npm", "npx", "pnpm", "yarn", "yarnpkg"]

/-- Embedding of `get_shim_list_deduped` (Unix): stems of the symlink entries
plus the default shims, as a set (modelled as a deduplicated list). -/
def getShimListDeduped (d : Dir) : List String :=
  (d.filterMap entryToShimName ++ defaultShims).dedup

/-- One iteration of the `regenerate_shims_for_dir` loop: delete then create
the named shim. -/
def regenStep (d : Dir) (name : String) : Dir :=
  createShim (deleteShim d name) name

/-- Embedding of `regenerate_shims_for_dir` (Unix): for every name in the
deduplicated shim list, delete and recreate the shim. -/
def regenerateShimsForDir (d : Dir) : Dir :=
  (getShimListDeduped d).foldl regenStep d

/-! ## Theorems -/

/-- Flipping a numeric conditional between its `≤` and `<` forms. -/
theorem if_le_flip {α : Type} (k m : Nat) (a b : α) :
    (if k ≤ m then a else b) = if m < k then b else a := by
  by_cases h : k ≤ m
  · simp [h, Nat.not_lt.mpr h]
  · simp [h, Nat.lt_of_not_le h]

/-- C1: `VersionSpec` parsing tries an exact version first, then a semver
range, then a tag, with a leading `v` stripped; in particular `parse("lts")`
is `Tag(Lts)`, `parse("latest")` is `Tag(Latest)`, `parse("beta")` is
`Tag(Custom("beta"))`, `parse("v1.5")` is `Exact(1.5.0)`, and `parse("^1.2")`
is a `Range` for `^1.2`. -/
theorem versionSpec_parse_priority :
    (∀ s v, parseVersion s = some v → versionSpecFromStr s = .ok (.exact v))
    ∧ (∀ s r, parseVersion s = Option.none → parseRequirements s = some r →
        versionSpecFromStr s = .ok (.semver r))
    ∧ (∀ s, parseVersion s = Option.none → parseRequirements s = Option.none →
        versionSpecFromStr s = (versionTagFromStr s).map VersionSpec.tag)
    ∧ parseRequirements "v1.5" = parseRequirements "1.5"
    ∧ versionSpecFromStr "lts" = .ok (.tag .lts)
    ∧ versionSpecFromStr "latest" = .ok (.tag .latest)
    ∧ versionSpecFromStr "beta" = .ok (.tag (.custom "beta"))
    ∧ versionSpecFromStr "v1.5" = .ok (.exact (Version.mk 1 5 0 [] []))
    ∧ versionSpecFromStr "^1.2" = .ok (.semver [RangeClause.simples
        [Comparator.mk CompOp.caret (VerPattern.mk (some 1) (some 2) Option.none [])]]) := by
  refine ⟨?_, ?_, ?_, rfl, rfl, rfl, rfl, rfl, rfl⟩
  · intro s v h
    simp [versionSpecFromStr, h]
  · intro s r h₁ h₂
    simp [versionSpecFromStr, h₁, h₂]
  · intro s h₁ h₂
    simp [versionSpecFromStr, h₁, h₂]

/-- Witness for C1 at the concrete input `"1.2.3"`. -/
theorem versionSpec_parse_priority_witness :
    versionSpecFromStr "1.2.3" = .ok (.exact (Version.mk 1 2 3 [] [])) :=
  versionSpec_parse_priority.1 "1.2.3" (Version.mk 1 2 3 [] []) rfl

/-- C10: parsing a `VersionSpec` never fails — every string rejected by the
exact and range parsers is accepted as a tag, and `VersionTag::from_str`
returns `Ok(Custom(s))` for every string other than `"latest"` and `"lts"`. -/
theorem versionSpecFromStr_total :
    (∀ s, (versionSpecFromStr s).isOk = true)
    ∧ (∀ s, s ≠ "latest" → s ≠ "lts" → versionTagFromStr s = .ok (.custom s)) := by
  constructor
  · intro s
    unfold versionSpecFromStr
    cases parseVersion s with
    | some v => rfl
    | none =>
      cases parseRequirements s with
      | some r => rfl
      | none =>
        unfold versionTagFromStr
        by_cases h₁ : s = "latest"
        · simp [h₁, Except.map, Except.isOk, Except.toBool]
        · by_cases h₂ : s = "lts" <;>
            simp [h₁, h₂, Except.map, Except.isOk, Except.toBool]
  · intro s h₁ h₂
    simp [versionTagFromStr, h₁, h₂]

/-- Witness for C10 at the concrete input `"beta"`. -/
theorem versionSpecFromStr_total_witness :
    (versionSpecFromStr "beta").isOk = true
    ∧ versionTagFromStr "beta" = .ok (.custom "beta") :=
  ⟨versionSpecFromStr_total.1 "beta",
   versionSpecFromStr_total.2 "beta" (by decide) (by decide)⟩

/-- C2: `check_fetched` evaluates the predicate lock-free first; exactly when
that is false it acquires the Volta lock and evaluates a second time; it
returns `FetchNeeded` (carrying the possibly-held guard) exactly when the
second evaluation is also false, and `AlreadyFetched` otherwise; when the
first evaluation is true the lock is never acquired and only one evaluation
happens. -/
theorem checkFetched_double_check {ε : Type} (ctx : CheckCtx ε) :
    (ctx.pred 0 = .ok true →
      checkFetched ctx = .ok ⟨.alreadyFetched, 1, false⟩)
    ∧ (∀ b₁, ctx.pred 0 = .ok false → ctx.pred 1 = .ok b₁ →
      checkFetched ctx = .ok
        ⟨if b₁ then .alreadyFetched
          else .fetchNeeded (if ctx.lockOk then some () else none),
         2, ctx.lockOk⟩) := by
  constructor
  · intro h
    simp [checkFetched, h]
  · intro b₁ h₀ h₁
    cases b₁ <;> simp [checkFetched, h₀, h₁]

/-- Witness for C2: a predicate that is false both times, with the lock
available, yields a fetch-needed verdict holding the lock after two
evaluations. -/
theorem checkFetched_double_check_witness :
    checkFetched (ε := Unit) ⟨fun _ => .ok false, true⟩ =
      .ok ⟨.fetchNeeded (some ()), 2, true⟩ := by
  have h := (checkFetched_double_check (ε := Unit) ⟨fun _ => .ok false, true⟩).2
    false rfl rfl
  simpa using h

/-- C7: the archive basename uses the native architecture string except under
the fallback rule — on macOS-aarch64 it uses `x64` exactly when the major
component is below 16, on Windows-aarch64 exactly when it is below 20, and on
all other targets no fallback applies; the filename appends the extension. -/
theorem archiveBasename_arch_fallback :
    ∀ (t : Target) (v : Version),
      archiveBasename t v =
        "node-v" ++ versionToString v ++ "-" ++ nodeDistroOs t ++ "-" ++
          (if (t = .macA64 ∧ v.major < 16) ∨ (t = .winA64 ∧ v.major < 20)
            then "x64" else nodeDistroArch t)
      ∧ archiveFilename t v = archiveBasename t v ++ "." ++ nodeDistroExtension t := by
  intro t v
  refine ⟨?_, rfl⟩
  cases t <;>
    simp [archiveBasename, nodeDistroOs, nodeDistroArch,
      nodeDistroArchFallbackMac, nodeDistroArchFallbackWin, if_le_flip]

/-- Invariant of reachable lock states: an empty `LOCK_STATE` cell means no
live guards and no OS lock; a populated cell stores exactly the number of
live guards, which is positive, with the OS lock held. -/
theorem lockReachable_invariant {s : LockSt} (h : LockReachable s) :
    (s.state = Option.none → s.live = 0 ∧ s.osLocked = false)
    ∧ (∀ c, s.state = some c → c = s.live ∧ 1 ≤ c ∧ s.osLocked = true) := by
  induction h with
  | init => simp [initLockSt]
  | @acquire s hs ih =>
    cases hstate : s.state with
    | none =>
      have h0 := ih.1 hstate
      simp [lockAcquire, hstate, h0.1]
    | some c =>
      have hc := ih.2 c hstate
      simp [lockAcquire, hstate, hc.2.2]
      omega
  | @drop s hs hlive ih =>
    cases hstate : s.state with
    | none =>
      have h0 := ih.1 hstate
      omega
    | some c =>
      have hc := ih.2 c hstate
      by_cases hc1 : c = 1
      · simp [lockDrop, hstate, hc1]
        omega
      · simp [lockDrop, hstate, hc1, hc.2.2]
        omega

/-- C3: the process-wide lock follows the refcount protocol — acquire with an
empty state takes the OS lock and sets the count to 1, acquire with an
existing state only increments the count, dropping a guard decrements the
count and releases the OS lock exactly when the count reaches 0; consequently
in every reachable state the stored count equals the number of live guards
and the OS lock is held iff that count is at least 1. -/
theorem voltaLock_refcount_protocol :
    (∀ s : LockSt, s.state = Option.none →
        lockAcquire s = ⟨true, some 1, s.live + 1⟩)
    ∧ (∀ (s : LockSt) (c : Nat), s.state = some c →
        lockAcquire s = { s with state := some (c + 1), live := s.live + 1 })
    ∧ (∀ s : LockSt, s.state = some 1 →
        lockDrop s = ⟨false, Option.none, s.live - 1⟩)
    ∧ (∀ (s : LockSt) (c : Nat), s.state = some c → c ≠ 1 →
        lockDrop s = { s with state := some (c - 1), live := s.live - 1 })
    ∧ (∀ s : LockSt, LockReachable s →
        lockCount s = s.live ∧ (s.osLocked = true ↔ 1 ≤ lockCount s)) := by
  refine ⟨?_, ?_, ?_, ?_, ?_⟩
  · intro s h
    simp [lockAcquire, h]
  · intro s c h
    simp [lockAcquire, h]
  · intro s h
    simp [lockDrop, h]
  · intro s c h hc
    simp [lockDrop, h, hc]
  · intro s h
    have inv := lockReachable_invariant h
    cases hstate : s.state with
    | none =>
      have h0 := inv.1 hstate
      simp [lockCount, hstate, h0.1, h0.2]
    | some c =>
      have hc := inv.2 c hstate
      simp [lockCount, hstate, hc.2.2]
      omega

/-- Witness for C3: the state after one acquire from the initial state is
reachable and satisfies the invariant. -/
theorem voltaLock_refcount_protocol_witness :
    lockCount (lockAcquire initLockSt) = (lockAcquire initLockSt).live
    ∧ ((lockAcquire initLockSt).osLocked = true ↔
        1 ≤ lockCount (lockAcquire initLockSt)) :=
  voltaLock_refcount_protocol.2.2.2.2 (lockAcquire initLockSt)
    (.acquire .init)

/-- C6: each toolchain setter is a no-op — the platform file is not written —
when the new value equals the stored value; and setting npm, pnpm or yarn to
`Some(version)` with no default platform returns a "no default node" error
(the stored state is returned unchanged on the no-op paths and no new state
accompanies the error). -/
theorem toolchain_setters_noop_and_require_node :
    (∀ (p : PlatformSpec) (v : Version), p.node = v →
        setActiveNode (some p) v = (some p, false))
    ∧ (∀ (p : PlatformSpec) (x : Option Version), p.npm = x →
        setActiveNpm (some p) x = .ok (some p, false))
    ∧ (∀ (p : PlatformSpec) (x : Option Version), p.pnpm = x →
        setActivePnpm (some p) x = .ok (some p, false))
    ∧ (∀ (p : PlatformSpec) (x : Option Version), p.yarn = x →
        setActiveYarn (some p) x = .ok (some p, false))
    ∧ setActiveNpm Option.none Option.none = .ok (Option.none, false)
    ∧ setActivePnpm Option.none Option.none = .ok (Option.none, false)
    ∧ setActiveYarn Option.none Option.none = .ok (Option.none, false)
    ∧ (∀ v, setActiveNpm Option.none (some v) =
        .error (.noDefaultNodeVersion "npm"))
    ∧ (∀ v, setActivePnpm Option.none (some v) =
        .error (.noDefaultNodeVersion "pnpm"))
    ∧ (∀ v, setActiveYarn Option.none (some v) =
        .error (.noDefaultNodeVersion "Yarn")) := by
  refine ⟨?_, ?_, ?_, ?_, rfl, rfl, rfl, ?_, ?_, ?_⟩
  · intro p v h
    simp [setActiveNode, h]
  · intro p x h
    simp [setActiveNpm, h]
  · intro p x h
    simp [setActivePnpm, h]
  · intro p x h
    simp [setActiveYarn, h]
  · intro v
    simp [setActiveNpm]
  · intro v
    simp [setActivePnpm]
  · intro v
    simp [setActiveYarn]

/-- Witness for C6: setting the stored node version again writes nothing. -/
theorem toolchain_setters_noop_witness :
    setActiveNode (some ⟨Version.mk 18 17 1 [] [], none, none, none⟩)
        (Version.mk 18 17 1 [] [])
      = (some ⟨Version.mk 18 17 1 [] [], none, none, none⟩, false) :=
  toolchain_setters_noop_and_require_node.1
    ⟨Version.mk 18 17 1 [] [], none, none, none⟩ (Version.mk 18 17 1 [] []) rfl

/-- C4 counterexample: with `image/node/18.17.1/` and the shared link both
present, uninstalling `node@18.17.1` returns the file system unchanged — the
image directory and the shared-link directory are still there, contradicting
the claim that they are removed. -/
theorem nodeUninstall_counterexample :
    nodeUninstall (ε := Unit) (fun _ => .ok (Version.mk 18 17 1 [] []))
        (.exact (Version.mk 18 17 1 [] []))
        ⟨["18.17.1"], ["node"], ["typescript"], ["tsc"], ["tsc"], ["typescript"]⟩
      = .ok ⟨["18.17.1"], ["node"], ["typescript"], ["tsc"], ["tsc"], ["typescript"]⟩ := rfl

/-- C4 (amended): for every version spec that resolves, node uninstall
changes nothing at all — the image-directory and shared-link removals are
commented out in the source, and third-party packages, package and bin
configs, and shims are equally untouched. -/
theorem nodeUninstall_changes_nothing {ε : Type}
    (resolve : VersionSpec → Except ε Version) (matching : VersionSpec)
    (fs : VoltaFs) (v : Version) (h : resolve matching = .ok v) :
    nodeUninstall resolve matching fs = .ok fs := by
  simp [nodeUninstall, h]

/-- Witness for the amended C4 at a concrete resolvable spec. -/
theorem nodeUninstall_changes_nothing_witness :
    nodeUninstall (ε := Unit) (fun _ => .ok (Version.mk 20 0 0 [] []))
        (.tag .lts) ⟨["20.0.0"], [], [], [], [], []⟩
      = .ok ⟨["20.0.0"], [], [], [], [], []⟩ :=
  nodeUninstall_changes_nothing (fun _ => .ok (Version.mk 20 0 0 [] []))
    (.tag .lts) ⟨["20.0.0"], [], [], [], [], []⟩ (Version.mk 20 0 0 [] []) rfl

/-- Running an executor list that is an append whose prefix fully succeeds
continues with the suffix from the prefix's final state. -/
theorem executeAll_append_of_success {σ ε : Type} (pre : ExecutorList σ ε) :
    ∀ (rest : ExecutorList σ ε) (s s₁ : σ),
      pre.executeAll s = .ok (0, s₁) →
      (pre.append rest).executeAll s = rest.executeAll s₁ := by
  refine @ExecutorList.rec σ ε (fun _ => True)
    (fun l => ∀ (rest : ExecutorList σ ε) (s s₁ : σ),
      l.executeAll s = .ok (0, s₁) →
      (l.append rest).executeAll s = rest.executeAll s₁)
    (fun _ => trivial) (fun _ _ => trivial) ?_ ?_ pre
  · intro rest s s₁ h
    simp only [ExecutorList.executeAll, Except.ok.injEq, Prod.mk.injEq, true_and] at h
    simp [ExecutorList.append, h]
  · intro head tail _ ih rest s s₁ h
    simp only [ExecutorList.executeAll] at h
    simp only [ExecutorList.append, ExecutorList.executeAll]
    cases hh : head.execute s with
    | error e =>
      rw [hh] at h
      cases h
    | ok p =>
      obtain ⟨st, s'⟩ := p
      rw [hh] at h
      by_cases hst : st = 0
      · subst hst
        simp only [if_pos rfl] at h ⊢
        exact ih rest s' s₁ h
      · simp only [if_neg hst] at h
        cases h
        exact absurd rfl hst

/-- C8: a `Multiple` executor runs its sub-executors strictly in list order;
an empty list succeeds with status 0, a fully successful list yields status
0, and the first sub-executor exiting with a non-success status ends
execution immediately with that status — the executors after it never
influence the result. -/
theorem multiple_executes_in_order_until_failure {σ ε : Type} :
    (∀ s : σ, Executor.execute (ε := ε) (.multiple .nil) s = .ok (0, s))
    ∧ (∀ (es : ExecutorList σ ε) (s s' : σ),
        es.executeAll s = .ok (0, s') →
        Executor.execute (.multiple es) s = .ok (0, s'))
    ∧ (∀ (pre : ExecutorList σ ε) (e : Executor σ ε) (post : ExecutorList σ ε)
        (s s₁ s₂ : σ) (st : Nat),
        pre.executeAll s = .ok (0, s₁) →
        e.execute s₁ = .ok (st, s₂) → st ≠ 0 →
        Executor.execute (.multiple (pre.append (.cons e post))) s = .ok (st, s₂)) := by
  refine ⟨?_, ?_, ?_⟩
  · intro s
    rfl
  · intro es s s' h
    simpa [Executor.execute] using h
  · intro pre e post s s₁ s₂ st hpre he hst
    have happ := executeAll_append_of_success pre (.cons e post) s s₁ hpre
    simp only [Executor.execute, happ, ExecutorList.executeAll, he, if_neg hst]

/-- Witness for C8: with a trace as state, a successful first executor, a
failing second one (status 3) and a would-be third one, execution returns
status 3 and the trace shows only the first two ran. -/
theorem multiple_executes_witness :
    Executor.execute (σ := List Nat) (ε := Unit)
      (.multiple ((ExecutorList.cons (.leaf (fun s => .ok (0, 1 :: s))) .nil).append
        (.cons (.leaf (fun s => .ok (3, 2 :: s)))
          (.cons (.leaf (fun s => .ok (0, 9 :: s))) .nil)))) []
    = .ok (3, [2, 1]) :=
  multiple_executes_in_order_until_failure.2.2
    (ExecutorList.cons (.leaf (fun s => .ok (0, 1 :: s))) .nil)
    (.leaf (fun s => .ok (3, 2 :: s)))
    (ExecutorList.cons (.leaf (fun s => .ok (0, 9 :: s))) .nil)
    [] [1] [2, 1] 3 rfl rfl (by decide)

/-- Helper for C5: a fetch outcome is never reported as a cache hit. -/
theorem map_fetched_ne_fromCache {α : Type} (r : Except CErr α) (idx : α) :
    Except.map ResolveOutcome.fetched r ≠ .ok (.fromCache idx) := by
  cases r with
  | error e => exact fun h => Except.noConfusion h
  | ok a =>
    intro h
    injection h with h'
    exact ResolveOutcome.noConfusion h'

/-- C5 counterexample: with the expiry file present but holding `"garbage"`
(not an HTTP date) and a well-formed URL-prefixed index file, resolution
reports a parse error instead of treating the cache as a miss and fetching —
so "in every other case a fresh network fetch occurs" fails. -/
theorem nodeIndexCache_counterexample :
    resolveNodeVersions parseHttpDateModel
        (fun s => if s = "\nINDEX" then some 7 else Option.none)
        0 "u" ⟨some "garbage", some "u\nINDEX"⟩ (.ok 7)
      = .error .parseNodeIndexExpiryError
    ∧ resolveNodeVersions parseHttpDateModel
        (fun s => if s = "\nINDEX" then some 7 else Option.none)
        0 "u" ⟨some "garbage", some "u\nINDEX"⟩ (.ok 7)
      ≠ .ok (.fetched 7) := by
  exact ⟨rfl, fun h => Except.noConfusion h⟩

/-- C5 (amended): the cached index is returned iff the expiry file is
present, parses to an instant strictly later than now, the index body starts
with the requested URL, and the URL-stripped remainder parses; an absent
expiry, a non-future expiry, or a body without the URL prefix is a miss
followed by a fresh fetch; but a present-yet-unparsable expiry, or an
URL-stripped remainder that fails to parse, is an error rather than a
fetch. -/
theorem nodeIndexCache_validity {α : Type} (parseDate : String → Option Nat)
    (parseJson : String → Option α) (now : Nat) (url : String)
    (fs : NodeCacheFs) (fetchResult : Except CErr α) :
    (∀ idx,
      resolveNodeVersions parseDate parseJson now url fs fetchResult
          = .ok (.fromCache idx)
        ↔ ∃ e d json, fs.expiryFile = some e ∧ parseDate e = some d ∧ now < d
            ∧ fs.indexFile.bind (stripPrefix url) = some json
            ∧ parseJson json = some idx)
    ∧ (fs.expiryFile = Option.none →
        resolveNodeVersions parseDate parseJson now url fs fetchResult
          = fetchResult.map .fetched)
    ∧ (∀ e d, fs.expiryFile = some e → parseDate e = some d → ¬ now < d →
        resolveNodeVersions parseDate parseJson now url fs fetchResult
          = fetchResult.map .fetched)
    ∧ (∀ e d, fs.expiryFile = some e → parseDate e = some d → now < d →
        fs.indexFile.bind (stripPrefix url) = Option.none →
        resolveNodeVersions parseDate parseJson now url fs fetchResult
          = fetchResult.map .fetched)
    ∧ (∀ e, fs.expiryFile = some e → parseDate e = Option.none →
        resolveNodeVersions parseDate parseJson now url fs fetchResult
          = .error .parseNodeIndexExpiryError)
    ∧ (∀ e d json, fs.expiryFile = some e → parseDate e = some d → now < d →
        fs.indexFile.bind (stripPrefix url) = some json →
        parseJson json = Option.none →
        resolveNodeVersions parseDate parseJson now url fs fetchResult
          = .error .parseNodeIndexCacheError) := by
  refine ⟨?_, ?_, ?_, ?_, ?_, ?_⟩
  · intro idx
    constructor
    · intro h
      cases hE : fs.expiryFile with
      | none =>
        rw [resolveNodeVersions, readCachedOpt] at h
        simp only [hE] at h
        exact absurd h (map_fetched_ne_fromCache fetchResult idx)
      | some e =>
        cases hD : parseDate e with
        | none =>
          rw [resolveNodeVersions, readCachedOpt] at h
          simp only [hE, hD] at h
          cases h
        | some d =>
          by_cases hnow : now < d
          · cases hJ : fs.indexFile.bind (stripPrefix url) with
            | none =>
              rw [resolveNodeVersions, readCachedOpt] at h
              simp only [hE, hD, hnow, decide_True] at h
              rw [hJ] at h
              exact absurd h (map_fetched_ne_fromCache fetchResult idx)
            | some json =>
              cases hP : parseJson json with
              | none =>
                rw [resolveNodeVersions, readCachedOpt] at h
                simp only [hE, hD, hnow, decide_True] at h
                rw [hJ] at h
                simp only [hP] at h
                cases h
              | some idx' =>
                rw [resolveNodeVersions, readCachedOpt] at h
                simp only [hE, hD, hnow, decide_True] at h
                rw [hJ] at h
                simp only [hP] at h
                have hidx : idx' = idx := by
                  injection h with h'
                  injection h' with h''
                exact ⟨e, d, json, rfl, hD, hnow, rfl, by rw [hP, hidx]⟩
          · rw [resolveNodeVersions, readCachedOpt] at h
            simp only [hE, hD] at h
            rw [decide_eq_false hnow] at h
            exact absurd h (map_fetched_ne_fromCache fetchResult idx)
    · rintro ⟨e, d, json, hE, hD, hnow, hJ, hP⟩
      rw [resolveNodeVersions, readCachedOpt]
      simp only [hE, hD, hnow, decide_True]
      rw [hJ]
      simp only [hP]
  · intro hE
    rw [resolveNodeVersions, readCachedOpt]
    simp only [hE]
  · intro e d hE hD hnow
    rw [resolveNodeVersions, readCachedOpt]
    simp only [hE, hD]
    rw [decide_eq_false hnow]
  · intro e d hE hD hnow hJ
    rw [resolveNodeVersions, readCachedOpt]
    simp only [hE, hD, hnow, decide_True]
    rw [hJ]
  · intro e hE hD
    rw [resolveNodeVersions, readCachedOpt]
    simp only [hE, hD]
  · intro e d json hE hD hnow hJ hP
    rw [resolveNodeVersions, readCachedOpt]
    simp only [hE, hD, hnow, decide_True]
    rw [hJ]
    simp only [hP]

/-- Witness for the amended C5: a fresh expiry with a matching URL prefix and
a parsable body yields the cached index. -/
theorem nodeIndexCache_validity_witness :
    resolveNodeVersions parseHttpDateModel
        (fun s => if s = "\nINDEX" then some 7 else Option.none)
        0 "u" ⟨some "99", some "u\nINDEX"⟩ (.ok 5)
      = .ok (.fromCache 7) :=
  ((nodeIndexCache_validity parseHttpDateModel
      (fun s => if s = "\nINDEX" then some 7 else Option.none)
      0 "u" ⟨some "99", some "u\nINDEX"⟩ (.ok 5)).1 7).mpr
    ⟨"99", 99, "\nINDEX", rfl, rfl, by decide, by decide, by decide⟩

/-- Helper: lookup in a cons directory. -/
theorem entryAt_cons (p : String × Entry) (l : Dir) (k : String) :
    entryAt (p :: l) k = if p.1 = k then some p.2 else entryAt l k := by
  by_cases h : p.1 = k <;> simp [entryAt, List.find?, h]

/-- Helper: deleting a shim empties its slot and leaves every other name. -/
theorem entryAt_deleteShim (d : Dir) (n k : String) :
    entryAt (deleteShim d n) k = if k = n then Option.none else entryAt d k := by
  induction d with
  | nil => simp [deleteShim, entryAt]
  | cons p rest ih =>
    rw [deleteShim, List.filter_cons]
    by_cases hp : p.1 = n
    · rw [if_neg (by simp [hp])]
      rw [deleteShim] at ih
      rw [ih, entryAt_cons]
      by_cases hk : k = n
      · simp [hk]
      · rw [if_neg hk, if_neg hk, if_neg (fun hh : p.1 = k => hk (hh ▸ hp.symm ▸ rfl))]
    · rw [if_pos (by simp [hp])]
      rw [entryAt_cons, entryAt_cons]
      by_cases hpk : p.1 = k
      · rw [if_pos hpk, if_pos hpk, if_neg (fun hh : k = n => hp (hpk ▸ hh))]
      · rw [if_neg hpk, if_neg hpk]
        rw [deleteShim] at ih
        rw [ih]

/-- Helper: after deleting a shim, no entry with its name remains. -/
theorem deleteShim_not_present (d : Dir) (n : String) :
    (deleteShim d n).any (fun p => p.1 = n) = false := by
  by_contra hcon
  rw [Bool.not_eq_false, List.any_eq_true] at hcon
  obtain ⟨p, hp, hpn⟩ := hcon
  rw [deleteShim, List.mem_filter] at hp
  simp only [decide_eq_true_eq] at hp hpn
  exact hp.2 hpn

/-- Helper: one regeneration step replaces the slot of the name with a fresh
symlink to the shim executable. -/
theorem regenStep_eq (d : Dir) (n : String) :
    regenStep d n = (n, Entry.symlink shimExecutable) :: deleteShim d n := by
  rw [regenStep, createShim, deleteShim_not_present]
  simp

/-- Helper: lookup after one regeneration step. -/
theorem entryAt_regenStep (d : Dir) (n k : String) :
    entryAt (regenStep d n) k =
      if k = n then some (Entry.symlink shimExecutable) else entryAt d k := by
  rw [regenStep_eq, entryAt_cons, entryAt_deleteShim]
  by_cases h : k = n
  · subst h
    simp
  · rw [if_neg (fun hh : n = k => h hh.symm), if_neg h, if_neg h]

/-- Helper: lookup after the whole regeneration loop — every name in the list
holds a fresh symlink, every other slot is untouched. -/
theorem entryAt_foldl_regenStep (L : List String) :
    ∀ (d : Dir) (k : String),
      entryAt (L.foldl regenStep d) k =
        if k ∈ L then some (Entry.symlink shimExecutable) else entryAt d k := by
  induction L with
  | nil =>
    intro d k
    simp
  | cons n L' ih =>
    intro d k
    rw [List.foldl_cons, ih (regenStep d n) k, entryAt_regenStep]
    by_cases h1 : k ∈ L'
    · simp [h1]
    · by_cases h2 : k = n <;> simp [h1, h2]

/-- Helper: the regeneration loop over a duplicate-free name list prepends the
fresh symlinks (in reverse order) and keeps exactly the entries whose names
are not in the list. -/
theorem foldl_regenStep_structure (L : List String) :
    ∀ d : Dir, L.Nodup →
      L.foldl regenStep d =
        L.reverse.map (fun n => (n, Entry.symlink shimExecutable))
          ++ d.filter (fun p => !(decide (p.1 ∈ L))) := by
  induction L with
  | nil =>
    intro d _
    simp
  | cons n L' ih =>
    intro d hnd
    obtain ⟨hn, hL'⟩ := List.nodup_cons.mp hnd
    rw [List.foldl_cons, ih (regenStep d n) hL', regenStep_eq, List.filter_cons]
    rw [if_pos (by simp [hn])]
    rw [List.reverse_cons, List.map_append, List.append_assoc]
    congr 1
    simp only [List.map_cons, List.map_nil, List.singleton_append]
    congr 1
    rw [deleteShim, List.filter_filter]
    apply List.filter_congr
    intro p _
    by_cases h1 : p.1 = n <;> by_cases h2 : p.1 ∈ L' <;>
      simp [h1, h2, List.mem_cons]

/-- Helper: under the stability hypothesis every name in the shim list is its
own stem (created shims keep their place in later enumerations). -/
theorem shimList_stable (d : Dir)
    (hst : ∀ name target, (name, Entry.symlink target) ∈ d →
      fileStem (fileStem name) = fileStem name) :
    ∀ s ∈ getShimListDeduped d, fileStem s = s := by
  intro s hs
  rw [getShimListDeduped, List.mem_dedup, List.mem_append] at hs
  rcases hs with h | h
  · rw [List.mem_filterMap] at h
    obtain ⟨⟨name, e⟩, hmem, hf⟩ := h
    cases e with
    | symlink t =>
      simp only [entryToShimName] at hf
      injection hf with hf'
      rw [← hf']
      exact hst name t hmem
    | regular c => simp [entryToShimName] at hf
  · simp only [defaultShims, List.mem_cons, List.not_mem_nil, or_false] at h
    rcases h with rfl | rfl | rfl | rfl | rfl | rfl <;> decide

/-- Helper: regeneration does not change the shim list, as a set, when the
stability hypothesis holds. -/
theorem mem_shimList_regenerate (d : Dir)
    (hst : ∀ name target, (name, Entry.symlink target) ∈ d →
      fileStem (fileStem name) = fileStem name) :
    ∀ x, x ∈ getShimListDeduped (regenerateShimsForDir d) ↔
      x ∈ getShimListDeduped d := by
  intro x
  have hd1 : regenerateShimsForDir d =
      (getShimListDeduped d).reverse.map (fun n => (n, Entry.symlink shimExecutable))
        ++ d.filter (fun p => !(decide (p.1 ∈ getShimListDeduped d))) := by
    rw [regenerateShimsForDir]
    exact foldl_regenStep_structure _ d (List.nodup_dedup _)
  constructor
  · intro hx
    rw [getShimListDeduped, List.mem_dedup, List.mem_append] at hx
    rcases hx with h | h
    · rw [hd1, List.filterMap_append, List.mem_append] at h
      rcases h with h | h
      · rw [List.mem_filterMap] at h
        obtain ⟨p, hp, hf⟩ := h
        rw [List.mem_map] at hp
        obtain ⟨n, hn, rfl⟩ := hp
        simp only [entryToShimName] at hf
        injection hf with hf'
        rw [List.mem_reverse] at hn
        have hstab := shimList_stable d hst n hn
        rw [← hf', hstab]
        exact hn
      · rw [List.mem_filterMap] at h
        obtain ⟨p, hp, hf⟩ := h
        rw [List.mem_filter] at hp
        rw [getShimListDeduped, List.mem_dedup, List.mem_append]
        left
        rw [List.mem_filterMap]
        exact ⟨p, hp.1, hf⟩
    · rw [getShimListDeduped, List.mem_dedup, List.mem_append]
      right
      exact h
  · intro hx
    rw [getShimListDeduped, List.mem_dedup, List.mem_append]
    left
    rw [hd1, List.filterMap_append, List.mem_append]
    left
    rw [List.mem_filterMap]
    refine ⟨(x, Entry.symlink shimExecutable), ?_, ?_⟩
    · rw [List.mem_map]
      exact ⟨x, List.mem_reverse.mpr hx, rfl⟩
    · simp only [entryToShimName]
      rw [shimList_stable d hst x hx]

/-- C9 counterexample: a directory holding one symlink named `x.y.z` — its
stem `x.y` still has a dot, so the second run enumerates the freshly created
`x.y` shim with stem `x` and creates an `x` entry that the first run did not,
refuting idempotence for arbitrary directory states. -/
theorem regenerateShims_counterexample :
    entryAt (regenerateShimsForDir
      (regenerateShimsForDir [("x.y.z", Entry.symlink "t")])) "x"
      = some (.symlink shimExecutable)
    ∧ entryAt (regenerateShimsForDir [("x.y.z", Entry.symlink "t")]) "x"
      = Option.none := ⟨rfl, rfl⟩

/-- C9 (amended): `regenerate_shims_for_dir` is idempotent for every
directory state whose symlink names have dot-free stems (equivalently,
taking the stem twice changes nothing) — in particular for the directories
Volta itself produces; running it twice then leaves exactly the same shim
entries (names and contents) as running it once. -/
theorem regenerateShims_idempotent (d : Dir)
    (hst : ∀ name target, (name, Entry.symlink target) ∈ d →
      fileStem (fileStem name) = fileStem name) :
    ∀ k, entryAt (regenerateShimsForDir (regenerateShimsForDir d)) k
        = entryAt (regenerateShimsForDir d) k := by
  intro k
  conv_lhs => rw [regenerateShimsForDir]
  rw [entryAt_foldl_regenStep]
  by_cases hk : k ∈ getShimListDeduped (regenerateShimsForDir d)
  · rw [if_pos hk]
    have hk' : k ∈ getShimListDeduped d := (mem_shimList_regenerate d hst k).mp hk
    conv_rhs => rw [regenerateShimsForDir]
    rw [entryAt_foldl_regenStep, if_pos hk']
  · rw [if_neg hk]

/-- Witness for the amended C9: a directory with a dot-free shim and an
unrelated regular file, checked at the shim's name. -/
theorem regenerateShims_idempotent_witness :
    entryAt (regenerateShimsForDir (regenerateShimsForDir
        [("tsc", Entry.symlink "volta-shim"), ("readme", Entry.regular "hi")])) "tsc"
      = entryAt (regenerateShimsForDir
        [("tsc", Entry.symlink "volta-shim"), ("readme", Entry.regular "hi")]) "tsc" :=
  regenerateShims_idempotent
    [("tsc", Entry.symlink "volta-shim"), ("readme", Entry.regular "hi")]
    (by
      intro name target h
      simp only [List.mem_cons, List.not_mem_nil, or_false, Prod.mk.injEq] at h
      rcases h with ⟨h1, _⟩ | h2
      · subst h1
        decide
      · exact absurd h2.2 (by simp))
    "tsc"

end Volta
